import Mathlib

/- Shallow embedding of the bulk-ingestion pipeline of the repository's
`ingest_spotify.py`, in both of its variants:

  * the current variant `01_EDA_Canciones/scr/scripts/ingest_spotify.py`
    (bounded metadata retry loop, 403 refresh-retry, per-track fallback), and
  * the archive variant `archive/01_EDA_Canciones/src/scripts/ingest_spotify.py`
    (unbounded metadata retry loop, direct-protocol fallback, and the
    batch-size reduction cascade over the sizes 50, 20, 10, 5, 1).

Network interactions are modelled by explicit oracles: a response script
(one entry per call the code makes), so that every sequence of injected
failures corresponds to some oracle.  Loops whose Python form is a `while`
are embedded with a structural fuel argument whenever the loop's own guard
already bounds the iteration count; the fuel is chosen large enough that it
is never the binding constraint (stated and proved where it matters). -/

/-! ## `chunked` (both variants)

```python
def chunked(iterable, n):
    for i in range(0, len(iterable), n):
        yield iterable[i:i+n]
```

yields the slices `iterable[0:n], iterable[n:2n], ...`; for `n = 0` the
Python `range` raises, so the function is only ever used with `n ≥ 1`
(the call sites use 50 and 100). -/

def chunkedFuel {α : Type} : Nat → List α → Nat → List (List α)
  | 0, _, _ => []
  | _ + 1, [], _ => []
  | fuel + 1, x :: rest, n =>
    if n = 0 then []
    else ((x :: rest).take n) :: chunkedFuel fuel ((x :: rest).drop n) n

/-- Python `chunked(iterable, n)`: the list of slices `iterable[i:i+n]` for
`i = 0, n, 2n, ...`.  The fuel `xs.length` only serves to make the
recursion structural; it never cuts the loop short (each step consumes at
least one element when `n ≥ 1`). -/
def chunked {α : Type} (xs : List α) (n : Nat) : List (List α) :=
  chunkedFuel xs.length xs n

/-! ## Deduplication (both variants)

`list(dict.fromkeys(xs))` keeps each id's first occurrence, in order of
first appearance; the call sites first drop falsy (empty) ids with
`[t for t in track_ids if t]`. -/

def dedupAux {α : Type} [DecidableEq α] (acc : List α) : List α → List α
  | [] => acc
  | x :: rest => if x ∈ acc then dedupAux acc rest else dedupAux (acc ++ [x]) rest

/-- Python `list(dict.fromkeys(xs))`: deduplicate, keeping first occurrences. -/
def pyDedup {α : Type} [DecidableEq α] (xs : List α) : List α := dedupAux [] xs

/-- Specification-side form of first-seen deduplication, written from the
claim's words ("preserves the order of first appearance of each id"): keep
the head, then recursively deduplicate the tail with all copies of the head
removed.  To be compared with the implementation-side `pyDedup`. -/
def firstOccur {α : Type} [DecidableEq α] : List α → List α
  | [] => []
  | x :: rest => x :: firstOccur (rest.filter (fun y => y ≠ x))
termination_by l => l.length
decreasing_by
  have h := List.length_filter_le (fun y => decide (y ≠ x)) rest
  simp only [List.length_cons]
  omega

/-! ## Identifier Resolver (`extract_playlist_id`, both variants)

```python
def extract_playlist_id(input_str: str) -> str:
    if not input_str:
        return ""
    input_str = input_str.strip()
    m = re.search(r'(?:playlist/|spotify:playlist:)([A-Za-z0-9]+)', input_str)
    if m:
        return m.group(1)
    simple = re.match(r'^[A-Za-z0-9]+$', input_str)
    if simple:
        return input_str
    return input_str
```

The regex alternation's two literals start with distinct characters, so at
each scan position at most one of them can match; `re.search` returns the
leftmost match, whose group 1 is the maximal run of ASCII alphanumerics
right after the literal (the literal must be followed by at least one such
character for the position to match at all). -/

/-- The characters Python's `str.strip()` removes (ASCII whitespace). -/
def pyIsSpace (c : Char) : Bool :=
  c = ' ' || c = '\t' || c = '\n' || c = '\r' || c = '\x0b' || c = '\x0c'

/-- Python `str.strip()` on the character list. -/
def pyStripList (cs : List Char) : List Char :=
  ((cs.dropWhile pyIsSpace).reverse.dropWhile pyIsSpace).reverse

def litSlash : List Char := "playlist/".data

def litUri : List Char := "spotify:playlist:".data

/-- One attempt of the regex `(?:playlist/|spotify:playlist:)([A-Za-z0-9]+)`
at a fixed position: if one of the two literals is a prefix here and at
least one ASCII alphanumeric follows it, return the maximal alphanumeric
run after the literal. -/
def matchAt (cs : List Char) : Option (List Char) :=
  if litSlash.isPrefixOf cs then
    if (cs.drop litSlash.length).takeWhile Char.isAlphanum = [] then none
    else some ((cs.drop litSlash.length).takeWhile Char.isAlphanum)
  else if litUri.isPrefixOf cs then
    if (cs.drop litUri.length).takeWhile Char.isAlphanum = [] then none
    else some ((cs.drop litUri.length).takeWhile Char.isAlphanum)
  else none

/-- Python `re.search` of the pattern: try every position left to right, return
the first position's capture group. -/
def searchPat : List Char → Option (List Char)
  | [] => none
  | c :: rest =>
    match matchAt (c :: rest) with
    | some cap => some cap
    | none => searchPat rest

/-- The resolver `extract_playlist_id` from both variants.  Note `input_str` is
reassigned to its stripped form before any other use, and that the final
two `return input_str` branches return the same (stripped) string, exactly
as the source does. -/
def extract_playlist_id (input_str : String) : String :=
  if input_str = "" then ""
  else
    let s := pyStripList input_str.data
    match searchPat s with
    | some cap => String.mk cap
    | none =>
      if s ≠ [] ∧ s.all Char.isAlphanum then String.mk s else String.mk s

/-! ## Genre lookup (`get_primary_genre`, both variants)

```python
def get_primary_genre(artist_ids_str):
    if not artist_ids_str:
        return None
    for aid in artist_ids_str.split(";"):
        if aid and aid in artist_genres and artist_genres[aid]:
            return artist_genres[aid][0]
    return None
```

The `artist_genres` dict is modelled as a lookup function
`String → Option (List String)` (`none` = key absent); it is built from
batched `sp.artists` calls whose failures contribute no keys. -/

/-- Python `artist_ids_str.split(";")` (note `"".split(";") == [""]`). -/
def splitSemiAux : List Char → List Char → List String
  | [], cur => [String.mk cur.reverse]
  | c :: rest, cur =>
    if c = ';' then String.mk cur.reverse :: splitSemiAux rest []
    else splitSemiAux rest (c :: cur)

def pySplitSemi (s : String) : List String := splitSemiAux s.data []

/-- The `for aid in ...` loop body of `get_primary_genre`. -/
def genreLoop (genres : String → Option (List String)) : List String → Option String
  | [] => none
  | aid :: rest =>
    if aid ≠ "" then
      match genres aid with
      | some (g :: _) => some g
      | some [] => genreLoop genres rest
      | none => genreLoop genres rest
    else genreLoop genres rest

/-- Python `get_primary_genre(artist_ids_str)`; the dict membership test
`aid in artist_genres` and the truthiness test `artist_genres[aid]`
become the match on the lookup function. -/
def get_primary_genre (genres : String → Option (List String))
    (artist_ids_str : String) : Option String :=
  if artist_ids_str = "" then none
  else genreLoop genres (pySplitSemi artist_ids_str)

/-! ## Batch Fetcher with Backoff (current variant, `fetch_tracks_and_features`)

```python
for ids_batch in chunked(unique_ids, 50):
    retry = 0
    max_retries = 5
    while retry < max_retries:
        try:
            tracks = sp.tracks(ids_batch).get('tracks', [])
            break
        except Exception as e:
            retry += 1
            if retry >= max_retries:
                ...; tracks = []; break
            wait = min(60, 2 ** retry)
            ...; time.sleep(wait)
    for t in tracks:
        if not t:
            continue
        records.append({...})
```

The `sp.tracks` endpoint is an oracle indexed by the requested batch and
the per-batch attempt number (`retry` at call time); `.exn` is any raised
exception, `.ok ts` a response whose `'tracks'` entry is `ts` (entries may
be `null` for removed content). -/

structure PyArtist where
  aid : Option String
  aname : String
deriving DecidableEq

structure PyTrack where
  tid : Option String
  tname : String
  albumName : String
  releaseDate : String
  artists : List PyArtist
  popularity : Int
  durationMs : Int
  explicitFlag : Bool
deriving DecidableEq

inductive TrackResp where
  | exn
  | ok (tracks : List (Option PyTrack))
deriving DecidableEq

/-- The endpoint `sp.tracks` as an oracle: requested batch and per-batch attempt number
(the value of `retry` when the call is made) determine the response. -/
abbrev TrackOracle := List String → Nat → TrackResp

/-- Python `";".join(l)`. -/
def joinSemi : List String → String
  | [] => ""
  | [s] => s
  | s :: rest => s ++ ";" ++ joinSemi rest

/-- One metadata row (`records.append({...})`). -/
structure MetaRow where
  track_id : Option String
  track_name : String
  album : String
  release_date : String
  artist_names : String
  artist_ids : String
  popularity : Int
  duration_ms : Int
  explicitFlag : Bool
deriving DecidableEq

def mkMetaRow (t : PyTrack) : MetaRow :=
  { track_id := t.tid
    track_name := t.tname
    album := t.albumName
    release_date := t.releaseDate
    artist_names := joinSemi (t.artists.map PyArtist.aname)
    artist_ids := joinSemi (t.artists.filterMap (fun a =>
      match a.aid with
      | some s => if s = "" then none else some s
      | none => none))
    popularity := t.popularity
    duration_ms := t.durationMs
    explicitFlag := t.explicitFlag }

/-- The bounded retry loop for one batch.  Returns the final `tracks`
value, the number of `sp.tracks` calls made, and the list of backoff
delays slept.  The structural `fuel` starts at 5 and is never the binding
constraint: the `retry + 1 ≥ 5` exit fires first (see `tracksLoop_spec`). -/
def tracksLoop (O : TrackOracle) (b : List String) :
    Nat → Nat → List (Option PyTrack) × Nat × List Nat
  | _, 0 => ([], 0, [])
  | retry, fuel + 1 =>
    match O b retry with
    | .ok ts => (ts, 1, [])
    | .exn =>
      if 5 ≤ retry + 1 then ([], 1, [])
      else
        let r := tracksLoop O b (retry + 1) fuel
        (r.1, r.2.1 + 1, min 60 (2 ^ (retry + 1)) :: r.2.2)

def batchTracks (O : TrackOracle) (b : List String) : List (Option PyTrack) :=
  (tracksLoop O b 0 5).1

def batchAttempts (O : TrackOracle) (b : List String) : Nat :=
  (tracksLoop O b 0 5).2.1

def batchWaits (O : TrackOracle) (b : List String) : List Nat :=
  (tracksLoop O b 0 5).2.2

/-- Python `for t in tracks: if not t: continue; records.append(...)`. -/
def trackRecords (ts : List (Option PyTrack)) : List MetaRow :=
  ts.filterMap (fun t => t.map mkMetaRow)

/-- The whole metadata phase: accumulate the records of every 50-id batch
(a batch that exhausts its retries contributes `[]`). -/
def metaRecords (O : TrackOracle) (uids : List String) : List MetaRow :=
  (chunked uids 50).foldl (fun recs b => recs ++ trackRecords (batchTracks O b)) []

/-! ## Degraded-Mode Attribute Fetcher (archive variant)

```python
for ids_batch in chunked(df_meta['track_id'].tolist(), 100):
    feats = try_audio_features_spotipy(sp, ids_batch)
    if feats is None:
        if direct_token:
            direct_feats = try_audio_features_direct(direct_token, ids_batch)
            if direct_feats:
                features_rows.extend(direct_feats)
                continue
        reduced_ok = False
        for n in [50, 20, 10, 5, 1]:
            for small_batch in chunked(ids_batch, n):
                sf = try_audio_features_spotipy(sp, small_batch)
                if sf:
                    features_rows.extend([f for f in sf if f])
                    reduced_ok = True
                else:
                    if direct_token:
                        single = try_audio_features_direct(direct_token, small_batch)
                        if single:
                            features_rows.extend([f for f in single if f])
                            reduced_ok = True
            if reduced_ok:
                break
        if not reduced_ok:
            print(f"Warning: audio_features batch failed ...")
    else:
        features_rows.extend([f for f in feats if f])
```

Both `try_audio_features_spotipy` and `try_audio_features_direct` catch
every exception and return `None` on failure, so this loop never raises;
the embedding is a total function.  The fetcher never reads the ids it
forwards, so it is polymorphic in the id type `ι` (the pipeline
instantiates `ι := Option String`, the `track_id` column's element type).
A feature row carries its `id` (the merge key) plus the numeric descriptor
payload, abbreviated here to two representative fields. -/

structure PyFeat (ι : Type) where
  fid : ι
  tempo : Int
  energy : Int
deriving DecidableEq

inductive FeatResp (ι : Type) where
  | exn
  | ok (rows : List (Option (PyFeat ι)))
deriving DecidableEq

/-- The endpoint `sp.audio_features` (or the direct bearer-token request) as an oracle:
per-top-level-batch call counter and requested sub-batch determine the
response; `.exn` covers both a raised-and-caught exception and a non-2xx
direct response (the code treats them identically: `None`). -/
abbrev FeatOracle (ι : Type) := Nat → List ι → FeatResp ι

/-- Ghost trace of the calls the fetcher makes for one top-level batch. -/
inductive FTag where
  | fullTag
  | directTag
  | reduceTag (n : Nat)
  | reduceDirectTag (n : Nat)
deriving DecidableEq

def isReduceEntry {ι : Type} (e : FTag × List ι) : Bool :=
  match e.1 with
  | .reduceTag _ => true
  | .reduceDirectTag _ => true
  | _ => false

/-- Mutable state of the per-batch recovery loop: the two call counters
(ghost, they index the oracles), the accumulated `features_rows`
contribution, the `reduced_ok` flag and the ghost call trace. -/
structure DegSt (ι : Type) where
  kS : Nat
  kD : Nat
  rows : List (Option (PyFeat ι))
  ok : Bool
  trace : List (FTag × List ι)

/-- The `else` arm of a failed sub-batch attempt: last-resort direct
request (only when a bearer token is available). -/
def reduceDirectSub {ι : Type} (D : FeatOracle ι) (hasToken : Bool) (n : Nat)
    (sb : List ι) (st : DegSt ι) : DegSt ι :=
  if hasToken then
    match D st.kD sb with
    | .ok rows =>
      if rows.isEmpty then
        { st with kD := st.kD + 1, trace := st.trace ++ [(.reduceDirectTag n, sb)] }
      else
        { st with
          kD := st.kD + 1
          trace := st.trace ++ [(.reduceDirectTag n, sb)]
          rows := st.rows ++ rows.filter (fun f => f.isSome)
          ok := true }
    | .exn =>
      { st with kD := st.kD + 1, trace := st.trace ++ [(.reduceDirectTag n, sb)] }
  else st

/-- One sub-batch attempt of the Reduce pass at size `n`
(`sf = try_audio_features_spotipy(...)`; `if sf:` is falsy both for `None`
and for an empty list). -/
def reduceSub {ι : Type} (S D : FeatOracle ι) (hasToken : Bool) (n : Nat)
    (sb : List ι) (st : DegSt ι) : DegSt ι :=
  match S st.kS sb with
  | .ok rows =>
    if rows.isEmpty then
      reduceDirectSub D hasToken n sb
        { st with kS := st.kS + 1, trace := st.trace ++ [(.reduceTag n, sb)] }
    else
      { st with
        kS := st.kS + 1
        trace := st.trace ++ [(.reduceTag n, sb)]
        rows := st.rows ++ rows.filter (fun f => f.isSome)
        ok := true }
  | .exn =>
    reduceDirectSub D hasToken n sb
      { st with kS := st.kS + 1, trace := st.trace ++ [(.reduceTag n, sb)] }

/-- The inner `for small_batch in chunked(ids_batch, n)` loop. -/
def reducePass {ι : Type} (S D : FeatOracle ι) (hasToken : Bool) (n : Nat)
    (sbs : List (List ι)) (st : DegSt ι) : DegSt ι :=
  sbs.foldl (fun st sb => reduceSub S D hasToken n sb st) st

/-- The `for n in [50, 20, 10, 5, 1]` loop; `reduced_ok` is checked only
after a whole pass, and a `True` value breaks out.  Also returns the list
of sizes whose passes were executed (ghost). -/
def reduceCascade {ι : Type} (S D : FeatOracle ι) (hasToken : Bool)
    (idsBatch : List ι) : List Nat → DegSt ι → DegSt ι × List Nat
  | [], st => (st, [])
  | n :: rest, st =>
    if (reducePass S D hasToken n (chunked idsBatch n) st).ok then
      (reducePass S D hasToken n (chunked idsBatch n) st, [n])
    else
      ((reduceCascade S D hasToken idsBatch rest
          (reducePass S D hasToken n (chunked idsBatch n) st)).1,
        n :: (reduceCascade S D hasToken idsBatch rest
          (reducePass S D hasToken n (chunked idsBatch n) st)).2)

/-- One top-level 100-id batch of the attribute fetch: the full-batch
attempt, the full-batch direct fallback (which on success `continue`s
without filtering `None` entries, exactly as the source), then the Reduce
cascade. -/
def perBatchFeats {ι : Type} (S D : FeatOracle ι) (hasToken : Bool)
    (idsBatch : List ι) : DegSt ι × List Nat :=
  match S 0 idsBatch with
  | .ok rows =>
    ({ kS := 1
       kD := 0
       rows := rows.filter (fun f => f.isSome)
       ok := false
       trace := [(.fullTag, idsBatch)] }, [])
  | .exn =>
    if hasToken then
      match D 0 idsBatch with
      | .ok drows =>
        if drows.isEmpty then
          reduceCascade S D hasToken idsBatch [50, 20, 10, 5, 1]
            ⟨1, 1, [], false, [(.fullTag, idsBatch), (.directTag, idsBatch)]⟩
        else
          (⟨1, 1, drows, false, [(.fullTag, idsBatch), (.directTag, idsBatch)]⟩, [])
      | .exn =>
        reduceCascade S D hasToken idsBatch [50, 20, 10, 5, 1]
          ⟨1, 1, [], false, [(.fullTag, idsBatch), (.directTag, idsBatch)]⟩
    else
      reduceCascade S D hasToken idsBatch [50, 20, 10, 5, 1]
        ⟨1, 0, [], false, [(.fullTag, idsBatch)]⟩

/-- The whole attribute phase (`features_rows` accumulated over the
100-id batches). -/
def collectFeats {ι : Type} (S D : FeatOracle ι) (hasToken : Bool)
    (metaIds : List ι) : List (Option (PyFeat ι)) :=
  (chunked metaIds 100).foldl
    (fun acc b => acc ++ (perBatchFeats S D hasToken b).1.rows) []

/-- Number of recovery phases of one batch of the attribute fetch: the
non-Reduce calls (full attempt and direct retry) plus one per executed
Reduce pass size. -/
def degPhases {ι : Type} (res : DegSt ι × List Nat) : Nat :=
  res.1.trace.countP (fun e => !(isReduceEntry e)) + res.2.length

/-! ## Dataset Assembler (current variant)

```python
df_feats = pd.DataFrame([f for f in features_rows if f])
if not df_feats.empty:
    df = df_meta.merge(df_feats, left_on='track_id', right_on='id', how='left')
    if 'id' in df.columns:
        df = df.drop(columns=['id'])
else:
    df = df_meta
...
df['primary_artist_genre'] = df.get('artist_ids', pd.Series()).apply(get_primary_genre)
```

A pandas left merge keeps every left row in order; a left row with no
right match gets null attribute fields, one with `k` matches is repeated
`k` times.  Dropping the duplicated `'id'` column is representational (the
output row type simply has no separate id field). -/

structure OutRow where
  meta : MetaRow
  feat : Option (PyFeat (Option String))
  primary_artist_genre : Option String
deriving DecidableEq

/-- Pandas `df_meta.merge(df_feats, left_on='track_id', right_on='id', how='left')`. -/
def mergeRows (feats : List (PyFeat (Option String))) :
    List MetaRow → List (MetaRow × Option (PyFeat (Option String)))
  | [] => []
  | m :: rest =>
    (if (feats.filter (fun fR => fR.fid = m.track_id)).isEmpty
      then [(m, none)]
      else (feats.filter (fun fR => fR.fid = m.track_id)).map (fun fR => (m, some fR)))
      ++ mergeRows feats rest

/-- The join-or-skip step plus the genre column assignment. -/
def assembleRows (meta : List MetaRow)
    (featRows : List (Option (PyFeat (Option String))))
    (genres : String → Option (List String)) : List OutRow :=
  if (featRows.filterMap (fun f => f)).isEmpty then
    meta.map (fun m => ⟨m, none, get_primary_genre genres m.artist_ids⟩)
  else
    (mergeRows (featRows.filterMap (fun f => f)) meta).map
      (fun p => ⟨p.1, p.2, get_primary_genre genres p.1.artist_ids⟩)

/-- The pipeline `fetch_tracks_and_features` (current variant), end to end: dedup the
input ids, fetch metadata in 50-id batches with bounded retry, fetch
audio features in 100-id batches through the degraded-mode fetcher, left
join, and derive the genre column.  The `artist_genres` dict is passed as
a lookup function (its construction from batched `sp.artists` calls is
failure-tolerant and contributes no keys for failed batches). -/
def fetch_tracks_and_features (TO : TrackOracle)
    (S D : FeatOracle (Option String)) (hasToken : Bool)
    (genres : String → Option (List String)) (track_ids : List String) :
    List OutRow :=
  if (pyDedup (track_ids.filter (fun t => t ≠ ""))).isEmpty then []
  else
    if (metaRecords TO (pyDedup (track_ids.filter (fun t => t ≠ "")))).isEmpty then []
    else
      assembleRows (metaRecords TO (pyDedup (track_ids.filter (fun t => t ≠ ""))))
        (collectFeats S D hasToken
          ((metaRecords TO (pyDedup (track_ids.filter (fun t => t ≠ "")))).map
            MetaRow.track_id))
        genres

/-! ## Paginated Collection Fetcher (`get_playlist_track_ids`)

Current variant:

```python
try:
    results = sp.playlist_items(pid, ...)
except SpotifyException as e:
    status = getattr(e, 'http_status', None)
    if status == 404:
        return []
    raise                      # <- non-404 SpotifyException propagates!
except Exception as e:
    return []
items = results.get('items', [])
for item in items:
    tid = item.get('track', {}).get('id')
    if tid:
        track_ids.append(tid)
    if len(track_ids) >= limit:
        break
while results.get('next') and len(track_ids) < limit:
    try:
        results = sp.next(results)
    except Exception as e:
        break
    for item in results.get('items', []): ...
```

The archive variant is identical except that the non-404 branch is
`return []` instead of `raise`.  Page responses form a finite script, one
entry per page request the code makes (the first entry answers
`sp.playlist_items`, later entries answer `sp.next`); running off the end
of the script behaves as a raised-and-caught generic exception. -/

inductive PageResp where
  | spotifyExn (status : Option Nat)
  | otherExn
  | ok (items : List (Option String)) (next : Bool)
deriving DecidableEq

/-- Outcome of the current variant: either a normal return or a
propagated `SpotifyException` with its http status. -/
inductive PlaylistResult where
  | ok (ids : List String)
  | raised (status : Option Nat)
deriving DecidableEq

/-- The per-page item loop (`if tid:` is falsy for `None` and for the
empty string; the `len(track_ids) >= limit` break is checked every
iteration, after the conditional append). -/
def collectPage (limit : Nat) : List (Option String) → List String → List String
  | [], acc => acc
  | it :: rest, acc =>
    match it with
    | some tid =>
      if tid ≠ "" then
        if limit ≤ (acc ++ [tid]).length then acc ++ [tid]
        else collectPage limit rest (acc ++ [tid])
      else
        if limit ≤ acc.length then acc else collectPage limit rest acc
    | none =>
      if limit ≤ acc.length then acc else collectPage limit rest acc

/-- Python `while results.get('next') and len(track_ids) < limit:` — a page-fetch
failure (or an exhausted script) breaks with the partial result kept. -/
def paginateLoop (limit : Nat) : List PageResp → Bool → List String → List String
  | [], _, acc => acc
  | p :: rest, nxt, acc =>
    if nxt ∧ acc.length < limit then
      match p with
      | .ok items n2 => paginateLoop limit rest n2 (collectPage limit items acc)
      | _ => acc
    else acc

/-- The fetcher `get_playlist_track_ids`, current variant (non-404 `SpotifyException`
re-raised). -/
def get_playlist_track_ids_v2 (script : List PageResp) (playlist_id : String)
    (limit : Nat) : PlaylistResult :=
  if extract_playlist_id playlist_id = "" then .ok []
  else
    match script with
    | [] => .ok []
    | p :: rest =>
      match p with
      | .spotifyExn status =>
        if status = some 404 then .ok [] else .raised status
      | .otherExn => .ok []
      | .ok items nxt => .ok (paginateLoop limit rest nxt (collectPage limit items []))

/-- The fetcher `get_playlist_track_ids`, archive variant (every request error on the
first page yields an empty list; nothing propagates). -/
def get_playlist_track_ids_v1 (script : List PageResp) (playlist_id : String)
    (limit : Nat) : List String :=
  if extract_playlist_id playlist_id = "" then []
  else
    match script with
    | [] => []
    | p :: rest =>
      match p with
      | .spotifyExn _ => []
      | .otherExn => []
      | .ok items nxt => paginateLoop limit rest nxt (collectPage limit items [])


/-! ## Proofs -/

theorem chunkedFuel_flatten {α : Type} :
    ∀ (fuel : Nat) (xs : List α) (n : Nat), xs.length ≤ fuel → 1 ≤ n →
      (chunkedFuel fuel xs n).flatten = xs := by
  intro fuel
  induction fuel with
  | zero =>
    intro xs n hlen _
    have : xs = [] := List.eq_nil_of_length_eq_zero (Nat.le_zero.mp hlen)
    subst this
    simp [chunkedFuel]
  | succ f ih =>
    intro xs n hlen hn
    match xs with
    | [] => simp [chunkedFuel]
    | x :: rest =>
      have hn0 : n ≠ 0 := Nat.one_le_iff_ne_zero.mp hn
      simp only [chunkedFuel, hn0, if_false, List.flatten_cons]
      have hdrop : ((x :: rest).drop n).length ≤ f := by
        simp only [List.length_drop, List.length_cons]
        simp only [List.length_cons] at hlen
        omega
      rw [ih ((x :: rest).drop n) n hdrop hn]
      exact List.take_append_drop n (x :: rest)

theorem chunkedFuel_chunks {α : Type} :
    ∀ (fuel : Nat) (xs : List α) (n : Nat), xs.length ≤ fuel → 1 ≤ n →
      ∀ c ∈ chunkedFuel fuel xs n, c ≠ [] ∧ c.length ≤ n := by
  intro fuel
  induction fuel with
  | zero =>
    intro xs n hlen _
    have : xs = [] := List.eq_nil_of_length_eq_zero (Nat.le_zero.mp hlen)
    subst this
    simp [chunkedFuel]
  | succ f ih =>
    intro xs n hlen hn
    match xs with
    | [] => simp [chunkedFuel]
    | x :: rest =>
      have hn0 : n ≠ 0 := Nat.one_le_iff_ne_zero.mp hn
      simp only [chunkedFuel, hn0, if_false]
      intro c hc
      rcases List.mem_cons.mp hc with h1 | h2
      · subst h1
        constructor
        · intro habs
          have : ((x :: rest).take n).length = 0 := by rw [habs]; rfl
          simp only [List.length_take, List.length_cons] at this
          omega
        · simp only [List.length_take]
          exact min_le_left _ _
      · have hdrop : ((x :: rest).drop n).length ≤ f := by
          simp only [List.length_drop, List.length_cons]
          simp only [List.length_cons] at hlen
          omega
        exact ih ((x :: rest).drop n) n hdrop hn c h2

theorem firstOccur_subset {α : Type} [DecidableEq α] :
    ∀ (l : List α) (a : α), a ∈ firstOccur l → a ∈ l := by
  intro l
  induction l using firstOccur.induct with
  | case1 => intro a h; simp [firstOccur] at h
  | case2 x rest ih =>
    intro a h
    rw [firstOccur] at h
    rcases List.mem_cons.mp h with h1 | h2
    · simp [h1]
    · have := List.mem_of_mem_filter (ih a h2)
      simp [this]

theorem firstOccur_nodup {α : Type} [DecidableEq α] :
    ∀ l : List α, (firstOccur l).Nodup := by
  intro l
  induction l using firstOccur.induct with
  | case1 => simp [firstOccur]
  | case2 x rest ih =>
    rw [firstOccur]
    refine List.nodup_cons.mpr ⟨?_, ih⟩
    intro hmem
    have := firstOccur_subset _ x hmem
    have := List.of_mem_filter this
    simp at this

theorem firstOccur_mem {α : Type} [DecidableEq α] :
    ∀ (l : List α) (a : α), a ∈ firstOccur l ↔ a ∈ l := by
  intro l
  induction l using firstOccur.induct with
  | case1 => intro a; simp [firstOccur]
  | case2 x rest ih =>
    intro a
    constructor
    · exact firstOccur_subset (x :: rest) a
    · intro h
      rw [firstOccur]
      rcases List.mem_cons.mp h with h1 | h2
      · simp [h1]
      · by_cases hax : a = x
        · simp [hax]
        · have : a ∈ rest.filter (fun y => y ≠ x) :=
            List.mem_filter.mpr ⟨h2, by simp [hax]⟩
          exact List.mem_cons_of_mem _ ((ih a).mpr this)

theorem dedupAux_spec {α : Type} [DecidableEq α] :
    ∀ (xs acc : List α),
      dedupAux acc xs = acc ++ firstOccur (xs.filter (fun y => y ∉ acc)) := by
  intro xs
  induction xs with
  | nil => intro acc; simp [dedupAux, firstOccur]
  | cons x rest ih =>
    intro acc
    by_cases hx : x ∈ acc
    · simp only [dedupAux, hx, if_true]
      rw [ih acc]
      congr 2
      simp only [List.filter_cons]
      simp [hx]
    · simp only [dedupAux, hx, if_false]
      rw [ih (acc ++ [x])]
      have hfx : (rest.filter (fun y => y ∉ acc)).filter (fun y => y ≠ x)
          = rest.filter (fun y => y ∉ acc ++ [x]) := by
        rw [List.filter_filter]
        apply List.filter_congr
        intro y _
        by_cases h1 : y ∈ acc <;> by_cases h2 : y = x <;>
          simp [h1, h2, List.mem_append]
      have hcons : (x :: rest).filter (fun y => y ∉ acc)
          = x :: rest.filter (fun y => y ∉ acc) := by
        simp [List.filter_cons, hx]
      rw [hcons, firstOccur, ← hfx]
      simp

theorem pyDedup_eq_firstOccur {α : Type} [DecidableEq α] (xs : List α) :
    pyDedup xs = firstOccur xs := by
  unfold pyDedup
  rw [dedupAux_spec xs []]
  simp only [List.nil_append]
  congr 1
  apply List.filter_eq_self.mpr
  intro a _
  simp

theorem pyDedup_nodup {α : Type} [DecidableEq α] (xs : List α) :
    (pyDedup xs).Nodup := by
  rw [pyDedup_eq_firstOccur]; exact firstOccur_nodup xs

theorem pyDedup_mem {α : Type} [DecidableEq α] (xs : List α) (a : α) :
    a ∈ pyDedup xs ↔ a ∈ xs := by
  rw [pyDedup_eq_firstOccur]; exact firstOccur_mem xs a

theorem searchPat_none_of_no_lit :
    ∀ cs : List Char,
      (∀ suf : List Char, suf <:+ cs →
        ¬ litSlash.isPrefixOf suf ∧ ¬ litUri.isPrefixOf suf) →
      searchPat cs = none := by
  intro cs
  induction cs with
  | nil => intro _; rfl
  | cons c rest ih =>
    intro h
    have hself := h (c :: rest) (List.suffix_refl _)
    have : matchAt (c :: rest) = none := by
      unfold matchAt
      simp [hself.1, hself.2]
    simp only [searchPat, this]
    apply ih
    intro suf hsuf
    exact h suf (hsuf.trans (List.suffix_cons c rest))

theorem matchAt_capture (cs cap : List Char) (h : matchAt cs = some cap) :
    cap ≠ [] ∧ cap.all Char.isAlphanum := by
  unfold matchAt at h
  split at h
  · split at h
    · exact absurd h (by simp)
    · cases h
      refine ⟨by assumption, List.all_eq_true.mpr fun a ha => ?_⟩
      exact List.mem_takeWhile_imp ha
  · split at h
    · split at h
      · exact absurd h (by simp)
      · cases h
        refine ⟨by assumption, List.all_eq_true.mpr fun a ha => ?_⟩
        exact List.mem_takeWhile_imp ha
    · exact absurd h (by simp)

theorem searchPat_capture_alnum :
    ∀ (cs cap : List Char), searchPat cs = some cap →
      cap ≠ [] ∧ cap.all Char.isAlphanum := by
  intro cs
  induction cs with
  | nil => intro cap h; simp [searchPat] at h
  | cons c rest ih =>
    intro cap h
    simp only [searchPat] at h
    cases hm : matchAt (c :: rest) with
    | none =>
      rw [hm] at h
      exact ih cap h
    | some capm =>
      rw [hm] at h
      have hcap : capm = cap := by injection h
      exact hcap ▸ matchAt_capture (c :: rest) capm hm

theorem extract_playlist_id_of_search_none (s : String)
    (h : searchPat (pyStripList s.data) = none) :
    extract_playlist_id s = String.mk (pyStripList s.data) := by
  unfold extract_playlist_id
  by_cases hs : s = ""
  · subst hs
    simp [pyStripList]
  · simp only [hs, if_false, h]
    split <;> rfl

theorem extract_playlist_id_of_search_some (s : String) (cap : List Char)
    (hs : s ≠ "") (h : searchPat (pyStripList s.data) = some cap) :
    extract_playlist_id s = String.mk cap := by
  unfold extract_playlist_id
  simp only [hs, if_false, h]

/-- The loop returns the head of the first contributor's non-empty genre
list, i.e. the head of the filterMap of per-contributor first genres. -/
theorem genreLoop_eq_head_filterMap (genres : String → Option (List String)) :
    ∀ aids : List String,
      genreLoop genres aids =
        (aids.filterMap (fun aid =>
          if aid = "" then none
          else match genres aid with
            | some (g :: _) => some g
            | some [] => none
            | none => none)).head? := by
  intro aids
  induction aids with
  | nil => rfl
  | cons aid rest ih =>
    by_cases ha : aid = ""
    · simp only [genreLoop, ha, ite_not, if_true, List.filterMap_cons, if_true]
      simpa using ih
    · simp only [genreLoop, ha, ite_not, if_false, List.filterMap_cons, if_false]
      cases hg : genres aid with
      | none => simpa using ih
      | some gs =>
        cases gs with
        | nil => simpa using ih
        | cons g gt => simp

theorem tracksLoop_spec (O : TrackOracle) (b : List String) :
    ∀ (fuel retry : Nat), retry + fuel = 5 →
      (tracksLoop O b retry fuel).2.1 ≤ fuel ∧
      (tracksLoop O b retry fuel).2.2 =
        (List.range' (retry + 1) ((tracksLoop O b retry fuel).2.1 - 1)).map
          (fun k => min 60 (2 ^ k)) := by
  intro fuel
  induction fuel with
  | zero => intro retry _; simp [tracksLoop]
  | succ f ih =>
    intro retry hrf
    cases hO : O b retry with
    | ok ts => simp [tracksLoop, hO]
    | exn =>
      by_cases hstop : 5 ≤ retry + 1
      · simp [tracksLoop, hO, hstop]
      · have hf : retry + 1 + f = 5 := by omega
        have := ih (retry + 1) hf
        simp only [tracksLoop, hO, hstop, if_false]
        constructor
        · omega
        · rw [this.2]
          have hpos : 1 ≤ (tracksLoop O b (retry + 1) f).2.1 := by
            cases f with
            | zero => simp at hf; omega
            | succ f2 =>
              cases hO2 : O b (retry + 1) with
              | ok ts => simp [tracksLoop, hO2]
              | exn =>
                by_cases hs2 : 5 ≤ retry + 1 + 1 <;> simp [tracksLoop, hO2, hs2]
          obtain ⟨m, hm⟩ : ∃ m, (tracksLoop O b (retry + 1) f).2.1 = m + 1 :=
            ⟨(tracksLoop O b (retry + 1) f).2.1 - 1, by omega⟩
          rw [hm]
          simp only [Nat.add_sub_cancel, Nat.succ_sub_one]
          rw [List.range'_succ]
          simp

theorem batchAttempts_le (O : TrackOracle) (b : List String) :
    batchAttempts O b ≤ 5 :=
  (tracksLoop_spec O b 5 0 rfl).1

theorem batchWaits_formula (O : TrackOracle) (b : List String) :
    batchWaits O b =
      (List.range' 1 (batchAttempts O b - 1)).map (fun k => min 60 (2 ^ k)) :=
  (tracksLoop_spec O b 5 0 rfl).2

theorem tracksLoop_all_fail (O : TrackOracle) (b : List String)
    (hfail : ∀ k, O b k = .exn) :
    ∀ (fuel retry : Nat), (tracksLoop O b retry fuel).1 = [] := by
  intro fuel
  induction fuel with
  | zero => intro retry; simp [tracksLoop]
  | succ f ih =>
    intro retry
    by_cases hstop : 5 ≤ retry + 1 <;> simp [tracksLoop, hfail retry, hstop, ih]

theorem batchTracks_all_fail (O : TrackOracle) (b : List String)
    (hfail : ∀ k, O b k = .exn) : batchTracks O b = [] :=
  tracksLoop_all_fail O b hfail 5 0

theorem batchTracks_first_ok (O : TrackOracle) (b : List String)
    (ts : List (Option PyTrack)) (h : O b 0 = .ok ts) :
    batchTracks O b = ts := by
  unfold batchTracks
  simp [tracksLoop, h]

theorem foldl_append_eq_flatMap {α β : Type} (f : α → List β) :
    ∀ (l : List α) (acc : List β),
      l.foldl (fun r b => r ++ f b) acc = acc ++ l.flatMap f := by
  intro l
  induction l with
  | nil => intro acc; simp
  | cons b rest ih =>
    intro acc
    simp only [List.foldl_cons, List.flatMap_cons, ih, List.append_assoc]

/-- The `foldl`-accumulation over batches is the concatenation of the
per-batch record lists. -/
theorem metaRecords_eq_flatMap (O : TrackOracle) (uids : List String) :
    metaRecords O uids =
      (chunked uids 50).flatMap (fun b => trackRecords (batchTracks O b)) := by
  unfold metaRecords
  rw [foldl_append_eq_flatMap]
  simp

theorem reduceDirectSub_trace {ι : Type} (D : FeatOracle ι) (h : Bool) (n : Nat)
    (sb : List ι) (st : DegSt ι) :
    ∃ new, (reduceDirectSub D h n sb st).trace = st.trace ++ new ∧
      ∀ e ∈ new, isReduceEntry e := by
  unfold reduceDirectSub
  split
  · split
    · split
      · exact ⟨[(.reduceDirectTag n, sb)], rfl, by simp [isReduceEntry]⟩
      · exact ⟨[(.reduceDirectTag n, sb)], rfl, by simp [isReduceEntry]⟩
    · exact ⟨[(.reduceDirectTag n, sb)], rfl, by simp [isReduceEntry]⟩
  · exact ⟨[], by simp, by simp⟩

theorem reduceSub_trace {ι : Type} (S D : FeatOracle ι) (h : Bool) (n : Nat)
    (sb : List ι) (st : DegSt ι) :
    ∃ new, (reduceSub S D h n sb st).trace = st.trace ++ new ∧
      ∀ e ∈ new, isReduceEntry e := by
  unfold reduceSub
  cases hS : S st.kS sb with
  | ok rows =>
    by_cases hr : rows.isEmpty
    · simp only [hr, if_true]
      obtain ⟨new, hnew, hall⟩ := reduceDirectSub_trace D h n sb
        { st with kS := st.kS + 1, trace := st.trace ++ [(.reduceTag n, sb)] }
      refine ⟨[(.reduceTag n, sb)] ++ new, ?_, ?_⟩
      · rw [hnew]; simp
      · intro e he
        rcases List.mem_append.mp he with h1 | h2
        · simp at h1; subst h1; simp [isReduceEntry]
        · exact hall e h2
    · simp only [hr, if_false]
      exact ⟨[(.reduceTag n, sb)], rfl, by simp [isReduceEntry]⟩
  | exn =>
    obtain ⟨new, hnew, hall⟩ := reduceDirectSub_trace D h n sb
      { st with kS := st.kS + 1, trace := st.trace ++ [(.reduceTag n, sb)] }
    refine ⟨[(.reduceTag n, sb)] ++ new, ?_, ?_⟩
    · rw [hnew]; simp
    · intro e he
      rcases List.mem_append.mp he with h1 | h2
      · simp at h1; subst h1; simp [isReduceEntry]
      · exact hall e h2

theorem reducePass_trace {ι : Type} (S D : FeatOracle ι) (h : Bool) (n : Nat) :
    ∀ (sbs : List (List ι)) (st : DegSt ι),
      ∃ new, (reducePass S D h n sbs st).trace = st.trace ++ new ∧
        ∀ e ∈ new, isReduceEntry e := by
  intro sbs
  induction sbs with
  | nil => intro st; exact ⟨[], by simp [reducePass], by simp⟩
  | cons sb rest ih =>
    intro st
    obtain ⟨n1, h1, ha1⟩ := reduceSub_trace S D h n sb st
    obtain ⟨n2, h2, ha2⟩ := ih (reduceSub S D h n sb st)
    refine ⟨n1 ++ n2, ?_, ?_⟩
    · show (reducePass S D h n rest (reduceSub S D h n sb st)).trace = _
      rw [h2, h1, List.append_assoc]
    · intro e he
      rcases List.mem_append.mp he with hm | hm
      · exact ha1 e hm
      · exact ha2 e hm

theorem reduceCascade_trace {ι : Type} (S D : FeatOracle ι) (h : Bool)
    (b : List ι) :
    ∀ (sizes : List Nat) (st : DegSt ι),
      ∃ new, (reduceCascade S D h b sizes st).1.trace = st.trace ++ new ∧
        ∀ e ∈ new, isReduceEntry e := by
  intro sizes
  induction sizes with
  | nil => intro st; exact ⟨[], by simp [reduceCascade], by simp⟩
  | cons n rest ih =>
    intro st
    obtain ⟨n1, h1, ha1⟩ := reducePass_trace S D h n (chunked b n) st
    unfold reduceCascade
    split
    · exact ⟨n1, h1, ha1⟩
    · obtain ⟨n2, h2, ha2⟩ := ih (reducePass S D h n (chunked b n) st)
      refine ⟨n1 ++ n2, ?_, ?_⟩
      · rw [h2, h1, List.append_assoc]
      · intro e he
        rcases List.mem_append.mp he with hm | hm
        · exact ha1 e hm
        · exact ha2 e hm

theorem reduceCascade_passes {ι : Type} (S D : FeatOracle ι) (h : Bool)
    (b : List ι) :
    ∀ (sizes : List Nat) (st : DegSt ι),
      ∃ t, (reduceCascade S D h b sizes st).2 ++ t = sizes := by
  intro sizes
  induction sizes with
  | nil => intro st; exact ⟨[], rfl⟩
  | cons n rest ih =>
    intro st
    unfold reduceCascade
    split
    · exact ⟨rest, rfl⟩
    · obtain ⟨t, ht⟩ := ih (reducePass S D h n (chunked b n) st)
      exact ⟨t, by simp [ht]⟩

theorem reduceDirectSub_rows_fail {ι : Type} (D : FeatOracle ι) (h : Bool)
    (n : Nat) (sb : List ι) (st : DegSt ι)
    (hD : ∀ k b2, D k b2 = FeatResp.exn) :
    (reduceDirectSub D h n sb st).rows = st.rows := by
  unfold reduceDirectSub
  split
  · rw [hD st.kD sb]
  · rfl

theorem reduceSub_rows_fail {ι : Type} (S D : FeatOracle ι) (h : Bool)
    (n : Nat) (sb : List ι) (st : DegSt ι)
    (hS : ∀ k b2, S k b2 = FeatResp.exn) (hD : ∀ k b2, D k b2 = FeatResp.exn) :
    (reduceSub S D h n sb st).rows = st.rows := by
  unfold reduceSub
  rw [hS st.kS sb]
  exact reduceDirectSub_rows_fail D h n sb _ hD

theorem reducePass_rows_fail {ι : Type} (S D : FeatOracle ι) (h : Bool) (n : Nat)
    (hS : ∀ k b2, S k b2 = FeatResp.exn) (hD : ∀ k b2, D k b2 = FeatResp.exn) :
    ∀ (sbs : List (List ι)) (st : DegSt ι),
      (reducePass S D h n sbs st).rows = st.rows := by
  intro sbs
  induction sbs with
  | nil => intro st; rfl
  | cons sb rest ih =>
    intro st
    show (reducePass S D h n rest (reduceSub S D h n sb st)).rows = st.rows
    rw [ih, reduceSub_rows_fail S D h n sb st hS hD]

theorem reduceCascade_rows_fail {ι : Type} (S D : FeatOracle ι) (h : Bool)
    (b : List ι)
    (hS : ∀ k b2, S k b2 = FeatResp.exn) (hD : ∀ k b2, D k b2 = FeatResp.exn) :
    ∀ (sizes : List Nat) (st : DegSt ι),
      (reduceCascade S D h b sizes st).1.rows = st.rows := by
  intro sizes
  induction sizes with
  | nil => intro st; rfl
  | cons n rest ih =>
    intro st
    unfold reduceCascade
    split
    · exact reducePass_rows_fail S D h n hS hD (chunked b n) st
    · rw [ih]
      exact reducePass_rows_fail S D h n hS hD (chunked b n) st

/-- The four branch shapes of `perBatchFeats`: the trace always starts with
the single full-batch attempt, optionally followed by the single full-batch
direct attempt, followed only by Reduce sub-calls. -/
theorem perBatchFeats_trace_shape {ι : Type} (S D : FeatOracle ι) (h : Bool)
    (b : List ι) :
    ∃ pre new, (perBatchFeats S D h b).1.trace = pre ++ new ∧
      (pre = [(FTag.fullTag, b)] ∨ pre = [(FTag.fullTag, b), (FTag.directTag, b)]) ∧
      ∀ e ∈ new, isReduceEntry e := by
  unfold perBatchFeats
  split
  · exact ⟨[(FTag.fullTag, b)], [], by simp, Or.inl rfl, by simp⟩
  · split
    · split
      · split
        · obtain ⟨new, hnew, hall⟩ := reduceCascade_trace S D h b [50, 20, 10, 5, 1]
            ⟨1, 1, [], false, [(FTag.fullTag, b), (FTag.directTag, b)]⟩
          exact ⟨[(FTag.fullTag, b), (FTag.directTag, b)], new, hnew, Or.inr rfl, hall⟩
        · exact ⟨[(FTag.fullTag, b), (FTag.directTag, b)], [], by simp, Or.inr rfl, by simp⟩
      · obtain ⟨new, hnew, hall⟩ := reduceCascade_trace S D h b [50, 20, 10, 5, 1]
          ⟨1, 1, [], false, [(FTag.fullTag, b), (FTag.directTag, b)]⟩
        exact ⟨[(FTag.fullTag, b), (FTag.directTag, b)], new, hnew, Or.inr rfl, hall⟩
    · obtain ⟨new, hnew, hall⟩ := reduceCascade_trace S D h b [50, 20, 10, 5, 1]
        ⟨1, 0, [], false, [(FTag.fullTag, b)]⟩
      exact ⟨[(FTag.fullTag, b)], new, hnew, Or.inl rfl, hall⟩

theorem perBatchFeats_passes {ι : Type} (S D : FeatOracle ι) (h : Bool)
    (b : List ι) :
    ∃ t, (perBatchFeats S D h b).2 ++ t = [50, 20, 10, 5, 1] := by
  unfold perBatchFeats
  split
  · exact ⟨[50, 20, 10, 5, 1], rfl⟩
  · split
    · split
      · split
        · exact reduceCascade_passes S D h b [50, 20, 10, 5, 1]
            ⟨1, 1, [], false, [(FTag.fullTag, b), (FTag.directTag, b)]⟩
        · exact ⟨[50, 20, 10, 5, 1], rfl⟩
      · exact reduceCascade_passes S D h b [50, 20, 10, 5, 1]
          ⟨1, 1, [], false, [(FTag.fullTag, b), (FTag.directTag, b)]⟩
    · exact reduceCascade_passes S D h b [50, 20, 10, 5, 1]
        ⟨1, 0, [], false, [(FTag.fullTag, b)]⟩

theorem perBatchFeats_rows_fail {ι : Type} (S D : FeatOracle ι) (h : Bool)
    (b : List ι)
    (hS : ∀ k b2, S k b2 = FeatResp.exn) (hD : ∀ k b2, D k b2 = FeatResp.exn) :
    (perBatchFeats S D h b).1.rows = [] := by
  unfold perBatchFeats
  split
  · rename_i rows heq
    rw [hS 0 b] at heq
    exact absurd heq (by simp)
  · split
    · split
      · rename_i drows heq
        rw [hD 0 b] at heq
        exact absurd heq (by simp)
      · exact reduceCascade_rows_fail S D h b hS hD [50, 20, 10, 5, 1] _
    · exact reduceCascade_rows_fail S D h b hS hD [50, 20, 10, 5, 1] _

theorem collectFeats_fail {ι : Type} (S D : FeatOracle ι) (h : Bool)
    (metaIds : List ι)
    (hS : ∀ k b2, S k b2 = FeatResp.exn) (hD : ∀ k b2, D k b2 = FeatResp.exn) :
    collectFeats S D h metaIds = [] := by
  unfold collectFeats
  rw [foldl_append_eq_flatMap]
  simp only [List.nil_append]
  rw [List.flatMap_eq_nil_iff.mpr]
  intro b _
  exact perBatchFeats_rows_fail S D h b hS hD

theorem perBatchFeats_phases_le {ι : Type} (S D : FeatOracle ι) (h : Bool)
    (b : List ι) : degPhases (perBatchFeats S D h b) ≤ 2 + 5 := by
  unfold degPhases
  obtain ⟨pre, new, htr, hpre, hall⟩ := perBatchFeats_trace_shape S D h b
  obtain ⟨t, ht⟩ := perBatchFeats_passes S D h b
  have hlen : (perBatchFeats S D h b).2.length ≤ 5 := by
    have := congrArg List.length ht
    simp only [List.length_append] at this
    simp at this
    omega
  have hcount : (perBatchFeats S D h b).1.trace.countP (fun e => !(isReduceEntry e)) ≤ 2 := by
    rw [htr, List.countP_append]
    have h1 : pre.countP (fun e => !(isReduceEntry e)) ≤ 2 := by
      rcases hpre with hp | hp <;> subst hp <;> simp [List.countP_cons, isReduceEntry]
    have h2 : new.countP (fun e => !(isReduceEntry e)) = 0 := by
      rw [List.countP_eq_zero]
      intro e he
      simp [hall e he]
    omega
  omega

theorem filter_eq_key_len_le_one {β γ : Type} [DecidableEq γ] (g : β → γ) :
    ∀ (l : List β) (key : γ), (l.map g).Nodup →
      (l.filter (fun x => g x = key)).length ≤ 1 := by
  intro l
  induction l with
  | nil => intro key _; simp
  | cons x rest ih =>
    intro key hnd
    rw [List.map_cons, List.nodup_cons] at hnd
    rw [List.filter_cons]
    by_cases hx : g x = key
    · simp only [hx, decide_eq_true_eq, if_true, List.length_cons, decide_True]
      have : rest.filter (fun y => g y = key) = [] := by
        rw [List.filter_eq_nil_iff]
        intro a ha
        simp only [decide_eq_true_eq]
        intro hga
        exact hnd.1 (List.mem_map.mpr ⟨a, ha, by rw [hga, hx]⟩)
      rw [this]
      simp
    · simp only [hx, decide_False, if_false, decide_eq_true_eq]
      exact ih key hnd.2

theorem mergeRows_fst (feats : List (PyFeat (Option String)))
    (hnd : (feats.map PyFeat.fid).Nodup) :
    ∀ meta : List MetaRow, (mergeRows feats meta).map Prod.fst = meta := by
  intro meta
  induction meta with
  | nil => rfl
  | cons m rest ih =>
    simp only [mergeRows, List.map_append, ih]
    cases hms : feats.filter (fun fR => fR.fid = m.track_id) with
    | nil => simp [hms]
    | cons f0 fs =>
      have hle := filter_eq_key_len_le_one PyFeat.fid feats m.track_id hnd
      rw [hms] at hle
      simp only [List.length_cons] at hle
      have hfs : fs = [] := List.eq_nil_of_length_eq_zero (by omega)
      subst hfs
      simp [hms]

theorem assembleRows_meta (meta : List MetaRow)
    (featRows : List (Option (PyFeat (Option String))))
    (genres : String → Option (List String))
    (hnd : ((featRows.filterMap (fun f => f)).map PyFeat.fid).Nodup) :
    (assembleRows meta featRows genres).map OutRow.meta = meta := by
  unfold assembleRows
  split
  · simp [List.map_map]
    exact List.map_id meta
  · rw [List.map_map]
    have := mergeRows_fst (featRows.filterMap (fun f => f)) hnd meta
    calc ((mergeRows (featRows.filterMap (fun f => f)) meta).map
            (OutRow.meta ∘ fun p => ⟨p.1, p.2, get_primary_genre genres p.1.artist_ids⟩))
        = (mergeRows (featRows.filterMap (fun f => f)) meta).map Prod.fst := rfl
      _ = meta := this

theorem assembleRows_empty_feats (meta : List MetaRow)
    (featRows : List (Option (PyFeat (Option String))))
    (genres : String → Option (List String))
    (hempty : featRows.filterMap (fun f => f) = []) :
    assembleRows meta featRows genres =
      meta.map (fun m => ⟨m, none, get_primary_genre genres m.artist_ids⟩) := by
  unfold assembleRows
  rw [hempty]
  simp

theorem trackRecords_aligned_ids (f : String → Option PyTrack)
    (hf : ∀ i t, f i = some t → t.tid = some i) :
    ∀ b : List String,
      (trackRecords (b.map f)).map MetaRow.track_id =
        (b.filter (fun i => (f i).isSome)).map (fun i => some i) := by
  intro b
  induction b with
  | nil => rfl
  | cons i rest ih =>
    simp only [List.map_cons, trackRecords, List.filterMap_cons, List.filter_cons]
    cases hfi : f i with
    | none =>
      simp only [Option.map_none', hfi, Option.isSome_none, decide_False, if_false]
      exact ih
    | some t =>
      simp only [Option.map_some', hfi, Option.isSome_some, decide_True, if_true,
        List.map_cons]
      rw [show (mkMetaRow t).track_id = t.tid from rfl, hf i t hfi]
      exact congrArg (fun l => some i :: l) ih

theorem flatMap_filter_map_some (p : String → Bool) :
    ∀ chunks : List (List String),
      chunks.flatMap (fun b => (b.filter p).map (fun i => (some i : Option String))) =
        ((chunks.flatten).filter p).map (fun i => (some i : Option String)) := by
  intro chunks
  induction chunks with
  | nil => rfl
  | cons c rest ih =>
    simp only [List.flatMap_cons, List.flatten_cons, List.filter_append,
      List.map_append, ih]

/-- With an endpoint that answers every batch in the aligned per-id form
`b.map f` (the shape `sp.tracks` actually returns: one entry per requested
id, `null` for absent records), the metadata phase produces exactly one
record per id with a record, in input order. -/
theorem metaRecords_aligned_ids (O : TrackOracle) (f : String → Option PyTrack)
    (hO : ∀ b k, O b k = TrackResp.ok (b.map f))
    (hf : ∀ i t, f i = some t → t.tid = some i) (uids : List String) :
    (metaRecords O uids).map MetaRow.track_id =
      (uids.filter (fun i => (f i).isSome)).map (fun i => some i) := by
  rw [metaRecords_eq_flatMap]
  have hbt : ∀ b, batchTracks O b = b.map f :=
    fun b => batchTracks_first_ok O b (b.map f) (hO b 0)
  rw [List.map_flatMap]
  have hcong : ∀ b, (trackRecords (batchTracks O b)).map MetaRow.track_id =
      (b.filter (fun i => (f i).isSome)).map (fun i => some i) := by
    intro b
    rw [hbt b]
    exact trackRecords_aligned_ids f hf b
  calc (chunked uids 50).flatMap
        (fun b => (trackRecords (batchTracks O b)).map MetaRow.track_id)
      = (chunked uids 50).flatMap
          (fun b => (b.filter (fun i => (f i).isSome)).map (fun i => some i)) := by
        apply List.flatMap_congr
        intro b _
        exact hcong b
    _ = (((chunked uids 50).flatten).filter (fun i => (f i).isSome)).map
          (fun i => some i) := flatMap_filter_map_some _ (chunked uids 50)
    _ = (uids.filter (fun i => (f i).isSome)).map (fun i => some i) := by
        rw [show (chunked uids 50).flatten = uids from
          chunkedFuel_flatten uids.length uids 50 le_rfl (by omega)]

/-! ## Shared pipeline helpers -/

theorem pipeline_no_feats (TO : TrackOracle) (S D : FeatOracle (Option String))
    (h : Bool) (g : String → Option (List String)) (ids : List String)
    (hempty : (collectFeats S D h
        ((metaRecords TO (pyDedup (ids.filter (fun t => t ≠ "")))).map
          MetaRow.track_id)).filterMap (fun f => f) = []) :
    fetch_tracks_and_features TO S D h g ids =
      (metaRecords TO (pyDedup (ids.filter (fun t => t ≠ "")))).map
        (fun m => ⟨m, none, get_primary_genre g m.artist_ids⟩) := by
  unfold fetch_tracks_and_features
  split
  · rename_i hnil
    rw [List.isEmpty_iff.mp hnil]
    rfl
  · split
    · rename_i hmeta
      rw [List.isEmpty_iff.mp hmeta]
      rfl
    · exact assembleRows_empty_feats _ _ _ hempty

/-! ## The claims -/

/-- Claim C10: for every list `xs` and chunk size `n ≥ 1`, `chunked`
partitions `xs` exactly: concatenating the chunks in order gives back
`xs`, every chunk is non-empty, and every chunk has length at most `n`. -/
theorem claim_C10_chunked_partition {α : Type} (xs : List α) (n : Nat)
    (hn : 1 ≤ n) :
    (chunked xs n).flatten = xs ∧ ∀ c ∈ chunked xs n, c ≠ [] ∧ c.length ≤ n :=
  ⟨chunkedFuel_flatten xs.length xs n le_rfl hn,
   chunkedFuel_chunks xs.length xs n le_rfl hn⟩

theorem claim_C10_witness :
    1 ≤ 2 ∧ ((chunked [3, 1, 4, 1, 5] 2).flatten = [3, 1, 4, 1, 5] ∧
      ∀ c ∈ chunked [3, 1, 4, 1, 5] 2, c ≠ [] ∧ c.length ≤ 2) :=
  ⟨by decide, claim_C10_chunked_partition [3, 1, 4, 1, 5] 2 (by decide)⟩

/-- Claim C9: deduplication before any fetch (`list(dict.fromkeys(...))`
after dropping falsy ids) keeps exactly the distinct non-empty input ids,
in order of first appearance, so no id is ever fetched twice — in
particular the concatenation of all 50-id metadata batches contains no
duplicate id. -/
theorem claim_C9_dedup_first_seen (xs : List String) :
    pyDedup (xs.filter (fun t => t ≠ "")) =
        firstOccur (xs.filter (fun t => t ≠ "")) ∧
      (pyDedup (xs.filter (fun t => t ≠ ""))).Nodup ∧
      (∀ a, a ∈ pyDedup (xs.filter (fun t => t ≠ "")) ↔ a ∈ xs ∧ a ≠ "") ∧
      ((chunked (pyDedup (xs.filter (fun t => t ≠ ""))) 50).flatten).Nodup := by
  refine ⟨pyDedup_eq_firstOccur _, pyDedup_nodup _, ?_, ?_⟩
  · intro a
    rw [pyDedup_mem, List.mem_filter]
    simp
  · rw [show (chunked (pyDedup (xs.filter (fun t => t ≠ ""))) 50).flatten
          = pyDedup (xs.filter (fun t => t ≠ "")) from
        chunkedFuel_flatten _ _ 50 le_rfl (by omega)]
    exact pyDedup_nodup _

/-- Claim C8: the derived primary-genre of a row is the first non-empty
genre list's first entry among the row's contributor ids in listed order,
and absence yields no value: with contributor `A` mapped to `[]` and `B`
to `["jazz"]`, the ids string `"A;B"` resolves to `"jazz"` and `"A"`
alone resolves to no value. -/
theorem claim_C8_genre_fallback :
    (∀ (genres : String → Option (List String)) (s : String),
      get_primary_genre genres s =
        ((pySplitSemi s).filterMap (fun aid =>
          if aid = "" then none
          else match genres aid with
            | some (g :: _) => some g
            | some [] => none
            | none => none)).head?) ∧
    get_primary_genre
        (fun a => if a = "A" then some [] else
          if a = "B" then some ["jazz"] else none) "A;B" = some "jazz" ∧
    get_primary_genre
        (fun a => if a = "A" then some [] else
          if a = "B" then some ["jazz"] else none) "A" = none := by
  refine ⟨?_, by decide, by decide⟩
  intro genres s
  unfold get_primary_genre
  by_cases hs : s = ""
  · subst hs
    simp [pySplitSemi, splitSemiAux]
  · simp only [hs, if_false]
    exact genreLoop_eq_head_filterMap genres (pySplitSemi s)

/-- Claim C7 counterexample: the resolver does not return the original
string unchanged when no pattern matches — the input is stripped first:
on input `" ! "` (no embedded pattern, not alphanumeric) it returns `"!"`,
not the original `" ! "`. -/
theorem claim_C7_counterexample :
    extract_playlist_id " ! " = "!" ∧ extract_playlist_id " ! " ≠ " ! " := by
  constructor
  · decide
  · decide

/-- Claim C7 (amended): the resolver never fails; it returns the capture
of the first `playlist/<id>` or `spotify:playlist:<id>` match inside the
*stripped* input (a non-empty alphanumeric string), and otherwise returns
the stripped input itself (for inputs without surrounding whitespace this
is the original string verbatim; the alphanumeric test in the source is
observationally irrelevant since both final branches return the stripped
input). -/
theorem claim_C7_resolver_amended (s : String) :
    (∀ cap, searchPat (pyStripList s.data) = some cap →
      extract_playlist_id s = String.mk cap ∧ cap ≠ [] ∧
        cap.all Char.isAlphanum) ∧
    (searchPat (pyStripList s.data) = none →
      extract_playlist_id s = String.mk (pyStripList s.data)) := by
  constructor
  · intro cap hcap
    have hs : s ≠ "" := by
      intro hempty
      subst hempty
      simp [pyStripList, searchPat] at hcap
    obtain ⟨h1, h2⟩ := searchPat_capture_alnum _ cap hcap
    exact ⟨extract_playlist_id_of_search_some s cap hs hcap, h1, h2⟩
  · exact extract_playlist_id_of_search_none s

theorem claim_C7_witness :
    (extract_playlist_id "spotify:playlist:abc123" = "abc123" ∧
      ("abc123".data ≠ [] ∧ "abc123".data.all Char.isAlphanum)) ∧
    extract_playlist_id "https://x.test/playlist/zz9?si=0" = "zz9" := by
  constructor
  · have h := (claim_C7_resolver_amended "spotify:playlist:abc123").1
      "abc123".data (by decide)
    exact ⟨h.1, h.2⟩
  · have h := (claim_C7_resolver_amended "https://x.test/playlist/zz9?si=0").1
      "zz9".data (by decide)
    exact h.1

/-- Claim C2: the metadata Batch Fetcher retries a failed batch with
exponential backoff `wait = min(60, 2^retryCount)` up to a ceiling of 5
attempts; at the ceiling the batch degrades to an empty result, and the
fetch decomposes batch by batch, so a persistently failing batch never
aborts the others and every per-batch retry loop makes at most 5 calls. -/
theorem claim_C2_backoff_retry_ceiling (O : TrackOracle) (b : List String) :
    batchAttempts O b ≤ 5 ∧
    batchWaits O b =
      (List.range' 1 (batchAttempts O b - 1)).map (fun k => min 60 (2 ^ k)) ∧
    ((∀ k, O b k = TrackResp.exn) → batchTracks O b = []) ∧
    (∀ uids : List String,
      metaRecords O uids =
        (chunked uids 50).flatMap (fun b2 => trackRecords (batchTracks O b2))) :=
  ⟨batchAttempts_le O b, batchWaits_formula O b,
   fun hfail => batchTracks_all_fail O b hfail,
   fun uids => metaRecords_eq_flatMap O uids⟩

theorem claim_C2_witness :
    batchTracks (fun _ _ => TrackResp.exn) ["a"] = [] ∧
    batchAttempts (fun _ _ => TrackResp.exn) ["a"] = 5 ∧
    batchWaits (fun _ _ => TrackResp.exn) ["a"] = [2, 4, 8, 16] := by
  have h := claim_C2_backoff_retry_ceiling (fun _ _ => TrackResp.exn) ["a"]
  refine ⟨h.2.2.1 (fun k => rfl), by decide, ?_⟩
  rw [h.2.1]
  decide

/-- Claim C1: per 100-id batch, the Degraded-Mode Attribute Fetcher runs
at most `2 + 5` recovery phases (the full attempt and the one direct
retry, plus at most the five shrinking Reduce sizes); it is a total
function of the injected failure sequence (it never raises), and when
every recovery call fails the batch contributes no attribute rows and the
pipeline's items keep their metadata rows with the attribute field
absent. -/
theorem claim_C1_degraded_termination :
    (∀ (ι : Type) (S D : FeatOracle ι) (h : Bool) (b : List ι),
      degPhases (perBatchFeats S D h b) ≤ 2 + 5) ∧
    (∀ (ι : Type) (S D : FeatOracle ι) (h : Bool) (b : List ι),
      (∀ k b2, S k b2 = FeatResp.exn) → (∀ k b2, D k b2 = FeatResp.exn) →
      (perBatchFeats S D h b).1.rows = []) ∧
    (∀ (S D : FeatOracle (Option String)) (h : Bool) (TO : TrackOracle)
        (g : String → Option (List String)) (ids : List String),
      (∀ k b2, S k b2 = FeatResp.exn) → (∀ k b2, D k b2 = FeatResp.exn) →
      fetch_tracks_and_features TO S D h g ids =
        (metaRecords TO (pyDedup (ids.filter (fun t => t ≠ "")))).map
          (fun m => ⟨m, none, get_primary_genre g m.artist_ids⟩)) := by
  refine ⟨fun ι S D h b => perBatchFeats_phases_le S D h b,
    fun ι S D h b hS hD => perBatchFeats_rows_fail S D h b hS hD,
    fun S D h TO g ids hS hD => ?_⟩
  apply pipeline_no_feats
  rw [collectFeats_fail S D h _ hS hD]
  rfl

theorem claim_C1_witness :
    degPhases (perBatchFeats (fun _ _ => FeatResp.exn)
        (fun _ _ => FeatResp.exn) false [some "a"]) ≤ 2 + 5 ∧
    (perBatchFeats (fun _ _ => (FeatResp.exn : FeatResp Nat))
        (fun _ _ => FeatResp.exn) true [1, 2]).1.rows = [] ∧
    fetch_tracks_and_features
        (fun b _ => TrackResp.ok (b.map (fun i =>
          some ⟨some i, "n", "al", "rd", [], 1, 2, false⟩)))
        (fun _ _ => FeatResp.exn) (fun _ _ => FeatResp.exn) false
        (fun _ => none) ["a"] =
      (metaRecords
          (fun b _ => TrackResp.ok (b.map (fun i =>
            some ⟨some i, "n", "al", "rd", [], 1, 2, false⟩)))
          (pyDedup ((["a"] : List String).filter (fun t => t ≠ "")))).map
        (fun m => ⟨m, none, get_primary_genre (fun _ => none) m.artist_ids⟩) :=
  ⟨claim_C1_degraded_termination.1 (Option String) _ _ false [some "a"],
   claim_C1_degraded_termination.2.1 Nat _ _ true [1, 2]
     (fun _ _ => rfl) (fun _ _ => rfl),
   claim_C1_degraded_termination.2.2 _ _ false _ _ ["a"]
     (fun _ _ => rfl) (fun _ _ => rfl)⟩

/-- Claim C4: the Reduce step re-issues a failed batch at sizes drawn, in
order, from the fixed sequence `[50, 20, 10, 5, 1]` — the executed sizes
are always a prefix of that sequence, stopping right after the first size
with a success, so no larger size is ever re-attempted; in the concrete
scenario of a 50-id batch whose calls fail at full size, at the size-50
pass and through the size-20 pass, and succeed from the size-10 pass on,
exactly `ceil(50/10) = 5` sub-batch attempts happen at size 10 (and none
at sizes 5 or 1). -/
theorem claim_C4_reduce_fixed_sequence :
    (∀ (ι : Type) (S D : FeatOracle ι) (h : Bool) (b : List ι),
      ∃ t, (perBatchFeats S D h b).2 ++ t = [50, 20, 10, 5, 1]) ∧
    ((perBatchFeats
        (fun k sb => if k < 5 then FeatResp.exn
          else FeatResp.ok (sb.map (fun i => some ⟨i, 0, 0⟩)))
        (fun _ _ => (FeatResp.exn : FeatResp Nat)) false (List.range 50)).2 =
      [50, 20, 10] ∧
     (perBatchFeats
        (fun k sb => if k < 5 then FeatResp.exn
          else FeatResp.ok (sb.map (fun i => some ⟨i, 0, 0⟩)))
        (fun _ _ => (FeatResp.exn : FeatResp Nat)) false
        (List.range 50)).1.trace.countP
          (fun e => e.1 = FTag.reduceTag 10) = 5 ∧
     (perBatchFeats
        (fun k sb => if k < 5 then FeatResp.exn
          else FeatResp.ok (sb.map (fun i => some ⟨i, 0, 0⟩)))
        (fun _ _ => (FeatResp.exn : FeatResp Nat)) false
        (List.range 50)).1.trace.countP
          (fun e => e.1 = FTag.reduceTag 50) = 1 ∧
     (perBatchFeats
        (fun k sb => if k < 5 then FeatResp.exn
          else FeatResp.ok (sb.map (fun i => some ⟨i, 0, 0⟩)))
        (fun _ _ => (FeatResp.exn : FeatResp Nat)) false
        (List.range 50)).1.trace.countP
          (fun e => e.1 = FTag.reduceTag 20) = 3 ∧
     (perBatchFeats
        (fun k sb => if k < 5 then FeatResp.exn
          else FeatResp.ok (sb.map (fun i => some ⟨i, 0, 0⟩)))
        (fun _ _ => (FeatResp.exn : FeatResp Nat)) false
        (List.range 50)).1.trace.countP
          (fun e => e.1 = FTag.reduceTag 5) = 0 ∧
     (perBatchFeats
        (fun k sb => if k < 5 then FeatResp.exn
          else FeatResp.ok (sb.map (fun i => some ⟨i, 0, 0⟩)))
        (fun _ _ => (FeatResp.exn : FeatResp Nat)) false
        (List.range 50)).1.trace.countP
          (fun e => e.1 = FTag.reduceTag 1) = 0 ∧
     (perBatchFeats
        (fun k sb => if k < 5 then FeatResp.exn
          else FeatResp.ok (sb.map (fun i => some ⟨i, 0, 0⟩)))
        (fun _ _ => (FeatResp.exn : FeatResp Nat)) false
        (List.range 50)).1.rows.length = 50) :=
  ⟨fun ι S D h b => perBatchFeats_passes S D h b, by decide⟩

/-- Claim C3 counterexample: in the current variant, a first-page
`SpotifyException` whose status is not 404 (here 500) is re-raised — the
fetcher propagates the exception instead of returning an empty list. -/
theorem claim_C3_counterexample :
    get_playlist_track_ids_v2 [PageResp.spotifyExn (some 500)] "x1" 10 =
        PlaylistResult.raised (some 500) ∧
      get_playlist_track_ids_v2 [PageResp.spotifyExn (some 500)] "x1" 10 ≠
        PlaylistResult.ok [] := by
  constructor
  · decide
  · decide

/-- Claim C3 (amended): on a 404 first-page `SpotifyException` or on any
non-Spotify first-page error the current fetcher returns an empty list
without propagating; a `SpotifyException` with any other status is
re-raised by the current variant (only the archive variant returns an
empty list for every first-page request error). -/
theorem claim_C3_not_found_amended (pid : String) (limit : Nat)
    (status : Option Nat) (rest : List PageResp) :
    (status = some 404 →
      get_playlist_track_ids_v2 (PageResp.spotifyExn status :: rest) pid limit =
        PlaylistResult.ok []) ∧
    (extract_playlist_id pid ≠ "" → status ≠ some 404 →
      get_playlist_track_ids_v2 (PageResp.spotifyExn status :: rest) pid limit =
        PlaylistResult.raised status) ∧
    (get_playlist_track_ids_v2 (PageResp.otherExn :: rest) pid limit =
      PlaylistResult.ok []) ∧
    (get_playlist_track_ids_v1 (PageResp.spotifyExn status :: rest) pid limit
      = []) ∧
    (get_playlist_track_ids_v1 (PageResp.otherExn :: rest) pid limit = []) := by
  refine ⟨?_, ?_, ?_, ?_, ?_⟩
  · intro h404
    unfold get_playlist_track_ids_v2
    by_cases hpid : extract_playlist_id pid = "" <;> simp [hpid, h404]
  · intro hpid hns
    unfold get_playlist_track_ids_v2
    simp [hpid, hns]
  · unfold get_playlist_track_ids_v2
    by_cases hpid : extract_playlist_id pid = "" <;> simp [hpid]
  · unfold get_playlist_track_ids_v1
    by_cases hpid : extract_playlist_id pid = "" <;> simp [hpid]
  · unfold get_playlist_track_ids_v1
    by_cases hpid : extract_playlist_id pid = "" <;> simp [hpid]

theorem claim_C3_witness :
    get_playlist_track_ids_v2 [PageResp.spotifyExn (some 404)] "x1" 10 =
        PlaylistResult.ok [] ∧
      get_playlist_track_ids_v2 [PageResp.otherExn] "x1" 10 =
        PlaylistResult.ok [] ∧
      get_playlist_track_ids_v1 [PageResp.spotifyExn (some 500)] "x1" 10 = [] :=
  ⟨(claim_C3_not_found_amended "x1" 10 (some 404) []).1 rfl,
   (claim_C3_not_found_amended "x1" 10 none []).2.2.1,
   (claim_C3_not_found_amended "x1" 10 (some 500) []).2.2.2.1⟩

/-- Claim C5: with a primary endpoint answering every batch in aligned
per-id form (one entry per requested id, `null` for ids with no record,
each record carrying its own id) and with distinct ids among the collected
attribute rows, the assembled output has exactly one row per input id for
which the endpoint returned a record — in first-seen input order — and no
row for any id without a record. -/
theorem claim_C5_one_row_per_primary (TO : TrackOracle)
    (S D : FeatOracle (Option String)) (h : Bool)
    (g : String → Option (List String)) (ids : List String)
    (f : String → Option PyTrack)
    (hO : ∀ b k, TO b k = TrackResp.ok (b.map f))
    (hf : ∀ i t, f i = some t → t.tid = some i)
    (hnd : (((collectFeats S D h
        ((metaRecords TO (pyDedup (ids.filter (fun t => t ≠ "")))).map
          MetaRow.track_id)).filterMap (fun x => x)).map PyFeat.fid).Nodup) :
    (fetch_tracks_and_features TO S D h g ids).map (fun r => r.meta.track_id) =
      ((pyDedup (ids.filter (fun t => t ≠ ""))).filter
        (fun i => (f i).isSome)).map (fun i => some i) := by
  unfold fetch_tracks_and_features
  split
  · rename_i hnil
    rw [List.isEmpty_iff.mp hnil]
    rfl
  · split
    · rename_i hmeta
      have hzero := metaRecords_aligned_ids TO f hO hf
        (pyDedup (ids.filter (fun t => t ≠ "")))
      rw [List.isEmpty_iff.mp hmeta] at hzero
      simp only [List.map_nil] at hzero
      rw [← hzero]
      rfl
    · have h1 := assembleRows_meta
        (metaRecords TO (pyDedup (ids.filter (fun t => t ≠ ""))))
        (collectFeats S D h
          ((metaRecords TO (pyDedup (ids.filter (fun t => t ≠ "")))).map
            MetaRow.track_id))
        g hnd
      have h2 := metaRecords_aligned_ids TO f hO hf
        (pyDedup (ids.filter (fun t => t ≠ "")))
      calc (assembleRows
              (metaRecords TO (pyDedup (ids.filter (fun t => t ≠ ""))))
              (collectFeats S D h
                ((metaRecords TO (pyDedup (ids.filter (fun t => t ≠ "")))).map
                  MetaRow.track_id))
              g).map (fun r => r.meta.track_id)
          = ((assembleRows
              (metaRecords TO (pyDedup (ids.filter (fun t => t ≠ ""))))
              (collectFeats S D h
                ((metaRecords TO (pyDedup (ids.filter (fun t => t ≠ "")))).map
                  MetaRow.track_id))
              g).map OutRow.meta).map MetaRow.track_id := by
            rw [List.map_map]
            rfl
        _ = (metaRecords TO (pyDedup (ids.filter (fun t => t ≠ "")))).map
              MetaRow.track_id := by rw [h1]
        _ = ((pyDedup (ids.filter (fun t => t ≠ ""))).filter
              (fun i => (f i).isSome)).map (fun i => some i) := h2

theorem claim_C5_witness :
    (fetch_tracks_and_features
        (fun b _ => TrackResp.ok (b.map (fun i =>
          if i = "x2" then none
          else some ⟨some i, "n", "al", "rd", [], 1, 2, false⟩)))
        (fun _ _ => FeatResp.exn) (fun _ _ => FeatResp.exn) false
        (fun _ => none) ["x1", "x2", "x3"]).map (fun r => r.meta.track_id) =
      [some "x1", some "x3"] := by
  rw [claim_C5_one_row_per_primary _ _ _ false _ _
      (fun i => if i = "x2" then none
        else some ⟨some i, "n", "al", "rd", [], 1, 2, false⟩)
      (fun b k => rfl)
      (by
        intro i t ht
        by_cases h2 : i = "x2"
        · simp [h2] at ht
        · simp only [h2, if_false] at ht
          cases ht
          rfl)
      (by
        rw [collectFeats_fail _ _ false _ (fun _ _ => rfl) (fun _ _ => rfl)]
        simp)]
  decide

/-- Claim C6: if the secondary fetch yields zero attribute rows for the
whole run, the join is skipped and the output still has one row per
primary-fetched item carrying only the metadata fields, with the
attribute field absent — metadata-only degradation, not an error. -/
theorem claim_C6_metadata_only_join (TO : TrackOracle)
    (S D : FeatOracle (Option String)) (h : Bool)
    (g : String → Option (List String)) (ids : List String)
    (hempty : (collectFeats S D h
        ((metaRecords TO (pyDedup (ids.filter (fun t => t ≠ "")))).map
          MetaRow.track_id)).filterMap (fun f => f) = []) :
    fetch_tracks_and_features TO S D h g ids =
      (metaRecords TO (pyDedup (ids.filter (fun t => t ≠ "")))).map
        (fun m => ⟨m, none, get_primary_genre g m.artist_ids⟩) :=
  pipeline_no_feats TO S D h g ids hempty

theorem claim_C6_witness :
    fetch_tracks_and_features
        (fun b _ => TrackResp.ok (b.map (fun i =>
          some ⟨some i, "n", "al", "rd", [], 1, 2, false⟩)))
        (fun _ _ => FeatResp.exn) (fun _ _ => FeatResp.exn) false
        (fun _ => none) ["a", "b"] =
      [⟨mkMetaRow ⟨some "a", "n", "al", "rd", [], 1, 2, false⟩, none, none⟩,
       ⟨mkMetaRow ⟨some "b", "n", "al", "rd", [], 1, 2, false⟩, none, none⟩] := by
  rw [claim_C6_metadata_only_join _ _ _ false _ _
    (by
      rw [collectFeats_fail _ _ false _ (fun _ _ => rfl) (fun _ _ => rfl)]
      rfl)]
  decide
